import Mathlib

/-!
Shallow embedding of the distributed lazy AnnData collection from
`src/scvid/data/distributed_anndata.py` (scvi-distributed).

The embedding models:
  * the LRU shard cache shared by all shards (the `boltons` LRU used by the
    source is an external dependency; it is modelled from the spec, section 4.2),
  * `LazyAnnData` (shard metadata plus materialize-or-fetch logic),
  * `DistributedAnnDataCollection` (`__init__`, `materialize`, `__getstate__`,
    `__setstate__`),
  * the schema/reader collaborators (`scvid/data/schema.py` and
    `scvid/data/read.py` are not under `src/`; they are modelled from the spec).

File reads are modelled by an explicit environment `fs : String → Option AnnData`
passed to every operation that may touch the backing store; mutation of the
shared cache is modelled by explicit state passing; Python exceptions are
modelled by the `PyErr` error type.
-/

/-- Python exceptions raised by the embedded code, named after the spec's
error taxonomy (section 7).  `configurationError` stands for the `ValueError`s
raised by `DistributedAnnDataCollection.__init__` on conflicting parameters,
`shardSizeMismatchError` for the `n_obs` assertion in `LazyAnnData.adata`,
`schemaMismatchError` for `AnnDataSchema.validate_anndata` failures,
`cacheCapacityError` for the strict-enforcement assertion in `materialize`,
`typeError` for a Python `TypeError` (e.g. comparing an `int` with `None`),
`valueError` for the cache library's rejection of a non-positive capacity,
`indexError`/`attributeError`/`assertionError` for the like-named Python
errors, and `storageUnavailableError` for a failing backing-store read. -/
inductive PyErr where
  | configurationError
  | valueError
  | assertionError
  | indexError
  | typeError
  | attributeError
  | cacheCapacityError
  | storageUnavailableError
  | shardSizeMismatchError
  | schemaMismatchError
deriving DecidableEq, Repr

/-- Returns `true` when an `Except` value carries a success. -/
def isOkE {α : Type} (e : Except PyErr α) : Bool :=
  match e with
  | .ok _ => true
  | .error _ => false

/-- Modelled from the spec: the value of one tracked attribute group of a
structured table object returned by the backing reader — a column
name/dtype signature (`sig`) plus opaque per-row data (`data`). -/
structure AttrValue where
  sig : List String
  data : List String
deriving DecidableEq, Repr

/-- Modelled from the spec: the structured table object ("AnnData") returned
by the backing shard reader (`src/scvid/data/read.py` is not under `src/`):
a row count plus, for every attribute-group name, an `AttrValue`.
Attribute lookup is modelled as a total function, so `hasattr` is always
true in the embedding. -/
structure AnnData where
  n_obs : Nat
  attrs : String → AttrValue

/-- The tracked structural attribute groups, `LazyAnnData._lazy_attrs` in the
source (src/scvid/data/distributed_anndata.py line 223). -/
def lazyAttrs : List String := ["obs", "obsm", "layers", "var", "varm", "varp", "var_names"]

/-- Modelled from the spec (`src/scvid/data/schema.py` is not under `src/`):
`AnnDataSchema` keeps, for every tracked attribute group, a zero-row
placeholder value capturing the reference shard's column signature. -/
structure AnnDataSchema where
  attr_values : String → AttrValue

/-- Modelled from the spec: build the schema from the reference (first) shard,
keeping each tracked group's column signature and a zero-row placeholder. -/
def AnnDataSchema.ofAnnData (a : AnnData) : AnnDataSchema :=
  ⟨fun attr => { sig := (a.attrs attr).sig, data := [] }⟩

/-- Modelled from the spec: `AnnDataSchema.validate_anndata` checks that the
candidate's tracked attribute groups structurally match the reference
(column signatures equal); the row count is explicitly not checked here. -/
def AnnDataSchema.validate_anndata (s : AnnDataSchema) (a : AnnData) : Bool :=
  lazyAttrs.all fun attr => (s.attr_values attr).sig == (a.attrs attr).sig

/-- Modelled from the spec (section 4.2): the `boltons` LRU cache used by the
source.  `entries` is ordered least-recently-touched first; `max_size = none`
means unbounded (the spec: "unbounded if unset").  The library rejects a
non-positive `max_size` with a `ValueError` at construction; that check is
mirrored at the call sites that create a cache during collection
construction. -/
structure LRU where
  max_size : Option Nat
  entries : List (String × AnnData)

/-- A fresh empty cache. -/
def LRU.empty (max : Option Nat) : LRU := ⟨max, []⟩

/-- The resident keys, least-recently-touched first. -/
def LRU.keys (s : LRU) : List String := s.entries.map Prod.fst

/-- Remove the entry with the given key, if present. -/
def eraseKey (k : String) (es : List (String × AnnData)) : List (String × AnnData) :=
  es.filter fun e => e.1 != k

/-- Modelled from the spec: the presence check (Python `key in cache`);
it does not alter the recency order (returns the state unchanged). -/
def LRU.contains (k : String) (s : LRU) : Bool × LRU :=
  (s.keys.contains k, s)

/-- Modelled from the spec: cache lookup (Python `cache[key]`).  A hit counts
as a touch and moves the entry to most-recently-used; a miss raises `KeyError`
(returned here as `none`) and leaves the cache unchanged. -/
def LRU.get (k : String) (s : LRU) : Option AnnData × LRU :=
  match s.entries.find? (fun e => e.1 == k) with
  | none => (none, s)
  | some e => (some e.2, ⟨s.max_size, eraseKey k s.entries ++ [(k, e.2)]⟩)

/-- Modelled from the spec: cache insertion (Python `cache[key] = value`).
The entry becomes most-recently-used; when a capacity is set and exceeded,
exactly one eviction removes the least-recently-touched entry. -/
def LRU.insert (k : String) (v : AnnData) (s : LRU) : LRU :=
  let es := eraseKey k s.entries ++ [(k, v)]
  match s.max_size with
  | none => ⟨none, es⟩
  | some m => if m < es.length then ⟨some m, es.tail⟩ else ⟨some m, es⟩

/-- `LazyAnnData` (src/scvid/data/distributed_anndata.py lines 210-298):
shard metadata — file identity, global row range `[start, end)`, a reference
to the shared schema.  The shared cache is passed explicitly to the
operations instead of being stored by back reference. -/
structure LazyAnnData where
  filename : String
  limits : Nat × Nat
  schema : AnnDataSchema

/-- `LazyAnnData.n_obs` (line 250): declared row count `end - start`. -/
def LazyAnnData.n_obs (la : LazyAnnData) : Nat := la.limits.2 - la.limits.1

/-- `LazyAnnData.cached` (lines 266-268): `self.filename in self.cache`. -/
def LazyAnnData.cached (la : LazyAnnData) (cache : LRU) : Bool :=
  (LRU.contains la.filename cache).1

/-- `LazyAnnData.adata` (lines 270-286): get-or-insert.  On a hit the cached
content is returned (the lookup touches the entry); on a miss the backing
file is read, the loaded row count is checked against the declared count
(`AssertionError`, spec: `ShardSizeMismatchError`), the content is validated
against the schema (spec: `SchemaMismatchError`), and only content passing
both checks is inserted into the cache. -/
def LazyAnnData.adata (fs : String → Option AnnData) (la : LazyAnnData) (cache : LRU) :
    Except PyErr AnnData × LRU :=
  match LRU.get la.filename cache with
  | (some a, cache') => (.ok a, cache')
  | (none, _) =>
    match fs la.filename with
    | none => (.error .storageUnavailableError, cache)
    | some a =>
      if la.n_obs = a.n_obs then
        if la.schema.validate_anndata a then (.ok a, LRU.insert la.filename a cache)
        else (.error .schemaMismatchError, cache)
      else (.error .shardSizeMismatchError, cache)

/-- `LazyAnnData.__getattr__` (lines 288-298).  The source switches on the
process-wide `_GETATTR_MODE.lazy` flag, modelled here as the explicit
`lazyMode` argument: under lazy mode a tracked attribute's schema value is
returned (any other attribute raises `AttributeError`) without touching the
backing store; outside lazy mode the shard is materialized via
`LazyAnnData.adata` and the attribute of the loaded content is returned. -/
def LazyAnnData.getattr (fs : String → Option AnnData) (lazyMode : Bool)
    (la : LazyAnnData) (attr : String) (cache : LRU) : Except PyErr AttrValue × LRU :=
  if lazyMode then
    if lazyAttrs.contains attr then (.ok (la.schema.attr_values attr), cache)
    else (.error .attributeError, cache)
  else
    match LazyAnnData.adata fs la cache with
    | (.ok a, cache') => (.ok (a.attrs attr), cache')
    | (.error e, cache') => (.error e, cache')

/-- `DistributedAnnDataCollection` (src/scvid/data/distributed_anndata.py):
filenames, row-range boundaries, shared schema, cache configuration, the
list of lazy shards, and the shared LRU cache. -/
structure DistributedAnnDataCollection where
  filenames : List String
  limits : List Nat
  schema : AnnDataSchema
  max_cache_size : Option Nat
  cache_size_strictly_enforced : Bool
  adatas : List LazyAnnData
  cache : LRU

/-- The `LazyAnnData` list built in `__init__` (lines 119-122) and rebuilt in
`__setstate__` (lines 202-207): one shard per `zip([0] + limits, limits,
filenames)` triple, all sharing the schema (and the cache). -/
def buildLazyAdatas (filenames : List String) (limits : List Nat)
    (schema : AnnDataSchema) : List LazyAnnData :=
  (List.zip (List.zip (0 :: limits) limits) filenames).map
    fun p => { filename := p.2, limits := p.1, schema := schema }

/-- `DistributedAnnDataCollection.__init__` (lines 78-139).  In order:
`filenames[0]` is demanded (an empty list raises `IndexError`), the
`limits`/`shard_size` configuration is validated (`ValueError`, spec:
`ConfigurationError`), boundaries are computed from `shard_size` when not
given explicitly (Python's `limits[-1] - shard_size + last_shard_size`,
evaluated left to right), `len(limits) == len(filenames)` is asserted, the
LRU cache is created (the cache library rejects a non-positive capacity with
`ValueError`; an unset capacity is unbounded, following the spec), the first
file is read and inserted pre-emptively into the cache, the schema is built
from it, and the lazy shard list is built. -/
def DistributedAnnDataCollection.construct (fs : String → Option AnnData)
    (filenames : List String) (limits? : Option (List Nat))
    (shard_size? : Option Nat) (last_shard_size? : Option Nat)
    (max_cache_size : Option Nat) (cache_size_strictly_enforced : Bool) :
    Except PyErr DistributedAnnDataCollection :=
  match filenames with
  | [] => .error .indexError
  | f0 :: rest =>
    if limits?.isSome = shard_size?.isSome then .error .configurationError
    else if shard_size?.isNone ∧ last_shard_size?.isSome then .error .configurationError
    else
      let n := (f0 :: rest).length
      let limits : List Nat :=
        match shard_size? with
        | some ss =>
          let base := (List.range n).map fun i => ss * (i + 1)
          match last_shard_size? with
          | some lss => base.set (n - 1) (ss * n - ss + lss)
          | none => base
        | none => limits?.getD []
      if limits.length ≠ n then .error .assertionError
      else if max_cache_size = some 0 then .error .valueError
      else
        match fs f0 with
        | none => .error .storageUnavailableError
        | some adata0 =>
          let schema := AnnDataSchema.ofAnnData adata0
          .ok { filenames := f0 :: rest
                limits := limits
                schema := schema
                max_cache_size := max_cache_size
                cache_size_strictly_enforced := cache_size_strictly_enforced
                adatas := buildLazyAdatas (f0 :: rest) limits schema
                cache := LRU.insert f0 adata0 (LRU.empty max_cache_size) }

/-- A shard fetch performed by `materialize`: a cache hit on an already
resident shard, or a load of a non-resident shard from the backing store. -/
inductive FetchEvent where
  | hit (idx : Nat)
  | load (idx : Nat)
deriving DecidableEq, Repr

/-- One of the two loops of `DistributedAnnDataCollection.materialize`
(lines 163-173), iterating over the enumerated indices.  With
`wantCached = true` it is the first loop (`if self.adatas[idx].cached`),
with `wantCached = false` the second (`if not self.adatas[idx].cached`);
the guard is evaluated against the cache state at the moment the index is
examined, exactly as in the source.  Each performed fetch is recorded in
the trace as a `hit` (first loop) or `load` (second loop). -/
def materializePass (fs : String → Option AnnData) (adatas : List LazyAnnData)
    (wantCached : Bool) :
    List (Nat × Nat) → LRU → List (Option AnnData) → List FetchEvent →
    Except PyErr Unit × LRU × List (Option AnnData) × List FetchEvent
  | [], cache, res, tr => (.ok (), cache, res, tr)
  | p :: ps, cache, res, tr =>
    match adatas[p.2]? with
    | none => (.error .indexError, cache, res, tr)
    | some la =>
      if la.cached cache = wantCached then
        match LazyAnnData.adata fs la cache with
        | (.ok a, cache') =>
          materializePass fs adatas wantCached ps cache' (res.set p.1 (some a))
            (tr ++ [cond wantCached (.hit p.2) (.load p.2)])
        | (.error e, cache') => (.error e, cache', res, tr)
      else materializePass fs adatas wantCached ps cache res tr

/-- `DistributedAnnDataCollection.materialize` (lines 150-173).  Under strict
enforcement the request count is compared against the configured capacity
(`assert len(indices) <= self.max_cache_size`): with an unset capacity the
comparison itself is a Python `TypeError`; otherwise exceeding the capacity
raises the spec's `CacheCapacityError`.  Then the two passes run: first all
requested shards found in the cache, then the remaining ones.  Returned are
the result of the call, the collection with its updated cache, and the trace
of performed fetches. -/
def DistributedAnnDataCollection.materialize (fs : String → Option AnnData)
    (c : DistributedAnnDataCollection) (indices : List Nat) :
    Except PyErr (List (Option AnnData)) × DistributedAnnDataCollection × List FetchEvent :=
  let strictCheck : Except PyErr Unit :=
    if c.cache_size_strictly_enforced then
      match c.max_cache_size with
      | none => .error .typeError
      | some m => if m < indices.length then .error .cacheCapacityError else .ok ()
    else .ok ()
  match strictCheck with
  | .error e => (.error e, c, [])
  | .ok _ =>
    match materializePass fs c.adatas true indices.enum c.cache
        (List.replicate indices.length none) [] with
    | (.error e, cache1, _, tr1) => (.error e, { c with cache := cache1 }, tr1)
    | (.ok _, cache1, res1, tr1) =>
      match materializePass fs c.adatas false indices.enum cache1 res1 tr1 with
      | (.error e, cache2, _, tr2) => (.error e, { c with cache := cache2 }, tr2)
      | (.ok _, cache2, res2, tr2) => (.ok res2, { c with cache := cache2 }, tr2)

/-- The narrow persisted state: `__getstate__` (lines 193-197) copies the
object dictionary and deletes `cache` and `adatas`. -/
structure DACState where
  filenames : List String
  limits : List Nat
  schema : AnnDataSchema
  max_cache_size : Option Nat
  cache_size_strictly_enforced : Bool

/-- `DistributedAnnDataCollection.__getstate__` (lines 193-197). -/
def DistributedAnnDataCollection.getstate (c : DistributedAnnDataCollection) : DACState :=
  { filenames := c.filenames
    limits := c.limits
    schema := c.schema
    max_cache_size := c.max_cache_size
    cache_size_strictly_enforced := c.cache_size_strictly_enforced }

/-- `DistributedAnnDataCollection.__setstate__` (lines 199-207): restore the
narrow state, create a fresh empty cache, and rebuild the shard list from
the persisted filenames, boundaries and schema. -/
def DistributedAnnDataCollection.setstate (s : DACState) : DistributedAnnDataCollection :=
  { filenames := s.filenames
    limits := s.limits
    schema := s.schema
    max_cache_size := s.max_cache_size
    cache_size_strictly_enforced := s.cache_size_strictly_enforced
    adatas := buildLazyAdatas s.filenames s.limits s.schema
    cache := LRU.empty s.max_cache_size }

/-- A sequence of shard materializations (`LazyAnnData.adata` calls, the
cache's get-or-insert operation) threaded through the shared cache. -/
def runMaterializations (fs : String → Option AnnData) (las : List LazyAnnData)
    (cache : LRU) : LRU :=
  las.foldl (fun s la => (LazyAnnData.adata fs la s).2) cache

/-- Whether the shard at a given index of the collection is resident in the
collection's cache (out-of-range indices count as not resident). -/
def residentAt (c : DistributedAnnDataCollection) (idx : Nat) : Bool :=
  match c.adatas[idx]? with
  | some la => la.cached c.cache
  | none => false

/-- The fetch trace claimed for `materialize`: first a hit for every
requested index whose shard is resident at the start of the call, in list
order, then a load for every other requested index, in list order. -/
def twoPassTrace (c : DistributedAnnDataCollection) (indices : List Nat) :
    List FetchEvent :=
  (indices.filter (fun idx => residentAt c idx)).map .hit ++
  (indices.filter (fun idx => !residentAt c idx)).map .load

/-- The filename of the shard at a given index (the empty string when the
index is out of range). -/
def fnAt (adatas : List LazyAnnData) (idx : Nat) : String :=
  match adatas[idx]? with
  | some la => la.filename
  | none => ""

/-- The backing store holds loadable content for this shard: the read
succeeds, the loaded row count matches the declared one, and the content
validates against the schema. -/
def loadOk (fs : String → Option AnnData) (la : LazyAnnData) : Prop :=
  ∃ a, fs la.filename = some a ∧ la.n_obs = a.n_obs ∧
    la.schema.validate_anndata a = true

/-! Basic lemmas about the cache operations, shared by the claim theorems. -/

theorem cached_true_iff (la : LazyAnnData) (s : LRU) :
    la.cached s = true ↔ la.filename ∈ s.keys := by
  simp [LazyAnnData.cached, LRU.contains, List.elem_iff]

theorem cached_false_iff (la : LazyAnnData) (s : LRU) :
    la.cached s = false ↔ la.filename ∉ s.keys := by
  rw [← Bool.not_eq_true, not_iff_not]
  exact cached_true_iff la s

theorem eraseKey_of_not_mem {k : String} {es : List (String × AnnData)}
    (h : k ∉ es.map Prod.fst) : eraseKey k es = es := by
  apply List.filter_eq_self.2
  intro e he
  simp only [bne_iff_ne, ne_eq, decide_eq_true_eq]
  intro hek
  exact h (hek ▸ List.mem_map_of_mem Prod.fst he)

theorem eraseKey_sublist (k : String) (es : List (String × AnnData)) :
    (eraseKey k es).Sublist es := List.filter_sublist es

theorem mem_map_fst_eraseKey {k k' : String} {es : List (String × AnnData)}
    (hne : k' ≠ k) : k' ∈ (eraseKey k es).map Prod.fst ↔ k' ∈ es.map Prod.fst := by
  constructor
  · intro h
    exact List.map_subset Prod.fst (List.Sublist.subset (eraseKey_sublist k es)) h
  · intro h
    obtain ⟨e, he, hek⟩ := List.mem_map.1 h
    refine List.mem_map.2 ⟨e, ?_, hek⟩
    refine List.mem_filter.2 ⟨he, ?_⟩
    simp only [bne_iff_ne, ne_eq, decide_eq_true_eq]
    intro h1
    exact hne (hek ▸ h1 ▸ rfl)

theorem length_eraseKey_le (k : String) (es : List (String × AnnData)) :
    (eraseKey k es).length ≤ es.length :=
  List.Sublist.length_le (eraseKey_sublist k es)

theorem find?_key_eq_none {k : String} {es : List (String × AnnData)}
    (h : k ∉ es.map Prod.fst) : es.find? (fun e => e.1 == k) = none := by
  rw [List.find?_eq_none]
  intro e he
  simp only [beq_iff_eq]
  intro hek
  exact h (hek ▸ List.mem_map_of_mem Prod.fst he)

theorem find?_key_of_mem {k : String} {es : List (String × AnnData)}
    (h : k ∈ es.map Prod.fst) :
    ∃ p, es.find? (fun e => e.1 == k) = some p ∧ p.1 = k ∧ p ∈ es := by
  obtain ⟨e, he, hek⟩ := List.mem_map.1 h
  have : (es.find? (fun e => e.1 == k)).isSome := by
    apply List.find?_isSome.2
    exact ⟨e, he, by simp [hek]⟩
  obtain ⟨p, hp⟩ := Option.isSome_iff_exists.1 this
  refine ⟨p, hp, ?_, List.mem_of_find?_eq_some hp⟩
  have := List.find?_some hp
  simpa using this

/-- On a miss, the cache lookup returns `none` and the state unchanged. -/
theorem LRU.get_of_not_mem {k : String} {s : LRU} (h : k ∉ s.keys) :
    LRU.get k s = (none, s) := by
  unfold LRU.get
  rw [find?_key_eq_none h]

/-- On a hit, the cache lookup returns the stored content and moves the
entry to the most-recently-used end. -/
theorem LRU.get_of_mem {k : String} {s : LRU} (h : k ∈ s.keys) :
    ∃ a, (k, a) ∈ s.entries ∧
      LRU.get k s = (some a, ⟨s.max_size, eraseKey k s.entries ++ [(k, a)]⟩) := by
  obtain ⟨p, hp, hpk, hpm⟩ := find?_key_of_mem h
  refine ⟨p.2, ?_, ?_⟩
  · have : p = (k, p.2) := by rw [← hpk]
    exact this ▸ hpm
  · unfold LRU.get
    rw [hp]

theorem LRU.get_snd_max_size (k : String) (s : LRU) :
    ((LRU.get k s).2).max_size = s.max_size := by
  unfold LRU.get
  cases hf : s.entries.find? (fun e => e.1 == k) <;> simp

theorem LRU.insert_max_size (k : String) (v : AnnData) (s : LRU) :
    (LRU.insert k v s).max_size = s.max_size := by
  unfold LRU.insert
  cases hm : s.max_size with
  | none => rfl
  | some m =>
    simp only
    split <;> rfl

/-! Characterization of `LazyAnnData.adata` (the get-or-insert logic). -/

/-- A materialization of a resident shard is a cache hit: it returns the
cached content and touches the entry (no file read: the conclusion holds for
every backing store). -/
theorem adata_hit (fs : String → Option AnnData) {la : LazyAnnData} {cache : LRU}
    (h : la.cached cache = true) :
    ∃ a, (la.filename, a) ∈ cache.entries ∧
      LazyAnnData.adata fs la cache =
        (.ok a, ⟨cache.max_size, eraseKey la.filename cache.entries ++ [(la.filename, a)]⟩) := by
  obtain ⟨a, ham, hg⟩ := LRU.get_of_mem ((cached_true_iff la cache).1 h)
  refine ⟨a, ham, ?_⟩
  unfold LazyAnnData.adata
  rw [hg]

/-- On a cache miss with an unreadable backing file, materialization fails
with the storage error and the cache is unchanged. -/
theorem adata_miss_storage {fs : String → Option AnnData} {la : LazyAnnData} {cache : LRU}
    (h : la.cached cache = false) (hfs : fs la.filename = none) :
    LazyAnnData.adata fs la cache = (.error .storageUnavailableError, cache) := by
  unfold LazyAnnData.adata
  rw [LRU.get_of_not_mem ((cached_false_iff la cache).1 h), hfs]

/-- On a cache miss, a loaded row count differing from the declared one fails
with `ShardSizeMismatchError` and leaves the cache unchanged. -/
theorem adata_miss_size {fs : String → Option AnnData} {la : LazyAnnData} {cache : LRU}
    {a : AnnData} (h : la.cached cache = false) (hfs : fs la.filename = some a)
    (hsz : la.n_obs ≠ a.n_obs) :
    LazyAnnData.adata fs la cache = (.error .shardSizeMismatchError, cache) := by
  unfold LazyAnnData.adata
  rw [LRU.get_of_not_mem ((cached_false_iff la cache).1 h), hfs]
  simp [hsz]

/-- On a cache miss with the right row count but diverging structure, the
schema validation fails with `SchemaMismatchError` and the cache is
unchanged. -/
theorem adata_miss_schema {fs : String → Option AnnData} {la : LazyAnnData} {cache : LRU}
    {a : AnnData} (h : la.cached cache = false) (hfs : fs la.filename = some a)
    (hsz : la.n_obs = a.n_obs) (hv : la.schema.validate_anndata a = false) :
    LazyAnnData.adata fs la cache = (.error .schemaMismatchError, cache) := by
  unfold LazyAnnData.adata
  rw [LRU.get_of_not_mem ((cached_false_iff la cache).1 h), hfs]
  simp [hsz, hv]

/-- On a cache miss with content passing both checks, the content is loaded
and inserted into the cache. -/
theorem adata_miss_ok {fs : String → Option AnnData} {la : LazyAnnData} {cache : LRU}
    {a : AnnData} (h : la.cached cache = false) (hfs : fs la.filename = some a)
    (hsz : la.n_obs = a.n_obs) (hv : la.schema.validate_anndata a = true) :
    LazyAnnData.adata fs la cache = (.ok a, LRU.insert la.filename a cache) := by
  unfold LazyAnnData.adata
  rw [LRU.get_of_not_mem ((cached_false_iff la cache).1 h), hfs]
  simp [hsz, hv]

/-! Claim C7. -/

/-- C7: checking whether a shard is materialized — `LazyAnnData.cached`, a
cache presence check on the shard's identity — does not alter the cache's
recency order: for every cache state the state (hence the eviction order,
its entry list) after the check equals the state before it. -/
theorem claim_C7 (la : LazyAnnData) (s : LRU) :
    (LRU.contains la.filename s).2 = s ∧
    ((LRU.contains la.filename s).2).entries = s.entries ∧
    la.cached s = (LRU.contains la.filename s).1 :=
  ⟨rfl, rfl, rfl⟩

/-! Claim C8. -/

/-- C8: serializing a collection's state and restoring from it yields a
collection with the same filenames, boundaries, schema and configuration
flags, a freshly rebuilt shard list, and an empty cache; and the serialized
state never depends on the cached content or the shard objects (collections
differing only in `cache` and `adatas` serialize identically). -/
theorem claim_C8 (c : DistributedAnnDataCollection) :
    (DistributedAnnDataCollection.setstate c.getstate).filenames = c.filenames ∧
    (DistributedAnnDataCollection.setstate c.getstate).limits = c.limits ∧
    (DistributedAnnDataCollection.setstate c.getstate).schema = c.schema ∧
    (DistributedAnnDataCollection.setstate c.getstate).max_cache_size = c.max_cache_size ∧
    (DistributedAnnDataCollection.setstate c.getstate).cache_size_strictly_enforced
      = c.cache_size_strictly_enforced ∧
    (DistributedAnnDataCollection.setstate c.getstate).adatas
      = buildLazyAdatas c.filenames c.limits c.schema ∧
    (DistributedAnnDataCollection.setstate c.getstate).cache.entries = [] ∧
    (∀ (cache' : LRU) (adatas' : List LazyAnnData),
      ({ c with cache := cache', adatas := adatas' } :
        DistributedAnnDataCollection).getstate = c.getstate) :=
  ⟨rfl, rfl, rfl, rfl, rfl, rfl, rfl, fun _ _ => rfl⟩

/-! Claim C10. -/

/-- C10: with strict cache-size enforcement enabled and the cache capacity
left unset (both constructor defaults), every call to `materialize` fails,
whatever indices are requested: the strictness guard compares the request
count against the unset capacity, which is a Python `TypeError`
(`len(indices) <= None`). -/
theorem claim_C10 (fs : String → Option AnnData) (c : DistributedAnnDataCollection)
    (indices : List Nat) (hstrict : c.cache_size_strictly_enforced = true)
    (hcap : c.max_cache_size = none) :
    c.materialize fs indices = (.error .typeError, c, []) := by
  simp [DistributedAnnDataCollection.materialize, hstrict, hcap]

/-- A backing content fixture shared by the witness collections. -/
def annW (fn : String) : AnnData := ⟨5, fun _ => ⟨["gene"], [fn]⟩⟩

/-- A backing store fixture shared by the witness collections. -/
def fsW : String → Option AnnData := fun fn => some (annW fn)

/-- The schema fixture shared by the witness collections. -/
def schemaW : AnnDataSchema := AnnDataSchema.ofAnnData (annW "w0")

/-- A collection with the constructor defaults (`max_cache_size = None`,
strict enforcement on), as produced by
`DistributedAnnDataCollection.construct fsW ["w0", "w1"] none (some 5) none
none true`. -/
def collC10 : DistributedAnnDataCollection :=
  { filenames := ["w0", "w1"]
    limits := [5, 10]
    schema := schemaW
    max_cache_size := none
    cache_size_strictly_enforced := true
    adatas := buildLazyAdatas ["w0", "w1"] [5, 10] schemaW
    cache := LRU.insert "w0" (annW "w0") (LRU.empty none) }

theorem claim_C10_witness :
    DistributedAnnDataCollection.construct fsW ["w0", "w1"] none (some 5) none
      none true = .ok collC10 ∧
    collC10.cache_size_strictly_enforced = true ∧
    collC10.max_cache_size = none ∧
    collC10.materialize fsW [0] = (.error .typeError, collC10, []) ∧
    collC10.materialize fsW [] = (.error .typeError, collC10, []) :=
  ⟨rfl, rfl, rfl, claim_C10 fsW collC10 [0] rfl rfl, claim_C10 fsW collC10 [] rfl rfl⟩

/-! Claim C3. -/

/-- C3: materializing a non-resident shard loads the backing file and then
(a) fails with `ShardSizeMismatchError` when the loaded row count differs
from the shard's declared `end - start`, (b) fails with
`SchemaMismatchError` when the loaded content (of the right row count)
structurally diverges from the schema; on either failure the cache is
unchanged, and only content passing both checks is inserted into the
cache. -/
theorem claim_C3 (fs : String → Option AnnData) (la : LazyAnnData) (cache : LRU)
    (a : AnnData) (h : la.cached cache = false) (hfs : fs la.filename = some a) :
    (la.n_obs ≠ a.n_obs →
      LazyAnnData.adata fs la cache = (.error .shardSizeMismatchError, cache)) ∧
    (la.n_obs = a.n_obs → la.schema.validate_anndata a = false →
      LazyAnnData.adata fs la cache = (.error .schemaMismatchError, cache)) ∧
    (la.n_obs = a.n_obs → la.schema.validate_anndata a = true →
      LazyAnnData.adata fs la cache = (.ok a, LRU.insert la.filename a cache)) :=
  ⟨fun hsz => adata_miss_size h hfs hsz,
   fun hsz hv => adata_miss_schema h hfs hsz hv,
   fun hsz hv => adata_miss_ok h hfs hsz hv⟩

/-- A shard whose backing content structurally diverges from its schema,
used by the claim C3 witness. -/
def laC3 : LazyAnnData :=
  { filename := "m1", limits := (0, 5), schema := ⟨fun _ => ⟨["x"], []⟩⟩ }

/-- The diverging backing content of the claim C3 witness. -/
def annC3 : AnnData := ⟨5, fun _ => ⟨["y"], []⟩⟩

/-- The backing store of the claim C3 witness. -/
def fsC3 : String → Option AnnData := fun fn => if fn = "m1" then some annC3 else none

theorem claim_C3_witness :
    laC3.cached (LRU.empty (some 2)) = false ∧
    fsC3 laC3.filename = some annC3 ∧
    laC3.schema.validate_anndata annC3 = false ∧
    LazyAnnData.adata fsC3 laC3 (LRU.empty (some 2))
      = (.error .schemaMismatchError, LRU.empty (some 2)) :=
  ⟨rfl, rfl, by decide,
   (claim_C3 fsC3 laC3 (LRU.empty (some 2)) annC3 rfl rfl).2.1 rfl (by decide)⟩

/-! Size bounds for the cache operations, and claim C2. -/

theorem length_eraseKey_lt {k : String} {es : List (String × AnnData)}
    (h : k ∈ es.map Prod.fst) : (eraseKey k es).length < es.length := by
  apply List.length_filter_lt_length_iff_exists.2
  obtain ⟨e, he, hek⟩ := List.mem_map.1 h
  exact ⟨e, he, by simp [hek]⟩

theorem LRU.insert_length_le {m : Nat} {s : LRU} (hm : s.max_size = some m)
    (h : s.entries.length ≤ m) (k : String) (v : AnnData) :
    (LRU.insert k v s).entries.length ≤ m := by
  have he := length_eraseKey_le k s.entries
  unfold LRU.insert
  rw [hm]
  simp only
  split
  · next hlt =>
    simp only [List.length_tail, List.length_append, List.length_cons,
      List.length_nil] at hlt ⊢
    omega
  · next hlt =>
    simp only [List.length_append, List.length_cons, List.length_nil] at hlt ⊢
    omega

theorem adata_preserves_bound {m : Nat} (fs : String → Option AnnData)
    (la : LazyAnnData) {cache : LRU} (hm : cache.max_size = some m)
    (h : cache.entries.length ≤ m) :
    (LazyAnnData.adata fs la cache).2.max_size = some m ∧
    (LazyAnnData.adata fs la cache).2.entries.length ≤ m := by
  cases hc : la.cached cache with
  | true =>
    obtain ⟨a, ham, heq⟩ := adata_hit fs hc
    rw [heq]
    constructor
    · exact hm
    · have hmem : la.filename ∈ cache.entries.map Prod.fst := (cached_true_iff la cache).1 hc
      have := length_eraseKey_lt hmem
      simp only [List.length_append, List.length_cons, List.length_nil]
      omega
  | false =>
    cases hfs : fs la.filename with
    | none => rw [adata_miss_storage hc hfs]; exact ⟨hm, h⟩
    | some a =>
      by_cases hsz : la.n_obs = a.n_obs
      · by_cases hv : la.schema.validate_anndata a = true
        · rw [adata_miss_ok hc hfs hsz hv]
          exact ⟨(LRU.insert_max_size _ _ _).trans hm, LRU.insert_length_le hm h _ _⟩
        · rw [adata_miss_schema hc hfs hsz (Bool.not_eq_true _ ▸ hv)]
          exact ⟨hm, h⟩
      · rw [adata_miss_size hc hfs hsz]
        exact ⟨hm, h⟩

theorem runMaterializations_bound {m : Nat} (fs : String → Option AnnData)
    (las : List LazyAnnData) :
    ∀ {cache : LRU}, cache.max_size = some m → cache.entries.length ≤ m →
      (runMaterializations fs las cache).entries.length ≤ m := by
  induction las with
  | nil => intro cache _ h; exact h
  | cons la las ih =>
    intro cache hm h
    obtain ⟨hm', h'⟩ := adata_preserves_bound fs la hm h
    exact ih hm' h'

/-- Inserting a fresh key into a full bounded cache evicts exactly the
least-recently-touched entry (the head of the recency list). -/
theorem LRU.insert_evicts_lru {m : Nat} {s : LRU} {k : String} (v : AnnData)
    (hm : s.max_size = some m) (hlen : s.entries.length = m) (h1 : 1 ≤ m)
    (hk : k ∉ s.keys) :
    (LRU.insert k v s).entries = s.entries.tail ++ [(k, v)] := by
  unfold LRU.insert
  rw [hm]
  simp only
  rw [eraseKey_of_not_mem hk]
  have hlt : m < (s.entries ++ [(k, v)]).length := by
    simp [hlen]
  rw [if_pos hlt]
  cases hes : s.entries with
  | nil => rw [hes] at hlen; simp at hlen; omega
  | cons e es => simp

/-- Inversion of a successful `DistributedAnnDataCollection.construct`. -/
theorem construct_ok_inv {fs : String → Option AnnData} {filenames : List String}
    {limits? : Option (List Nat)} {shard_size? last_shard_size? mcs : Option Nat}
    {strict : Bool} {c : DistributedAnnDataCollection}
    (h : DistributedAnnDataCollection.construct fs filenames limits? shard_size?
      last_shard_size? mcs strict = .ok c) :
    ∃ f0 rest a0, filenames = f0 :: rest ∧ fs f0 = some a0 ∧ mcs ≠ some 0 ∧
      c.filenames = filenames ∧
      c.max_cache_size = mcs ∧
      c.cache_size_strictly_enforced = strict ∧
      c.schema = AnnDataSchema.ofAnnData a0 ∧
      c.adatas = buildLazyAdatas filenames c.limits c.schema ∧
      c.limits.length = filenames.length ∧
      c.cache = LRU.insert f0 a0 (LRU.empty mcs) := by
  match filenames with
  | [] => simp [DistributedAnnDataCollection.construct] at h
  | f0 :: rest =>
    refine ⟨f0, rest, ?_⟩
    unfold DistributedAnnDataCollection.construct at h
    simp only at h
    split at h
    · simp at h
    · split at h
      · simp at h
      · split at h
        · simp at h
        · next hlen =>
          split at h
          · simp at h
          · next hzero =>
            cases hfs : fs f0 with
            | none => rw [hfs] at h; simp at h
            | some a0 =>
              rw [hfs] at h
              injection h with h2
              subst h2
              refine ⟨a0, rfl, rfl, hzero, rfl, rfl, rfl, rfl, rfl, ?_, rfl⟩
              simpa using hlen

/-! Claim C2. -/

/-- C2: for a collection constructed with a set cache capacity, after any
sequence of shard materializations (`LazyAnnData.adata` calls, the cache's
get-or-insert operation) the number of resident shards never exceeds the
capacity; and inserting a fresh key into a full cache of that capacity
evicts exactly the least-recently-touched entry (the head of the recency
list). -/
theorem claim_C2 (fs fs2 : String → Option AnnData) (filenames : List String)
    (limits? : Option (List Nat)) (shard_size? last_shard_size? : Option Nat)
    (cap : Nat) (strict : Bool) (c : DistributedAnnDataCollection)
    (h : DistributedAnnDataCollection.construct fs filenames limits? shard_size?
      last_shard_size? (some cap) strict = .ok c) :
    (∀ las, (runMaterializations fs2 las c.cache).entries.length ≤ cap) ∧
    (∀ (s : LRU) (k : String) (v : AnnData), s.max_size = some cap →
      s.entries.length = cap → k ∉ s.keys →
      (LRU.insert k v s).entries = s.entries.tail ++ [(k, v)]) := by
  obtain ⟨f0, rest, a0, hfn, hfs0, hzero, _, hmcs, _, _, _, _, hcache⟩ := construct_ok_inv h
  have hcap0 : cap ≠ 0 := fun hc => hzero (by rw [hc])
  refine ⟨?_, ?_⟩
  · intro las
    apply runMaterializations_bound
    · rw [hcache]
      exact LRU.insert_max_size _ _ _
    · rw [hcache]
      exact LRU.insert_length_le rfl (Nat.zero_le cap) f0 a0
  · intro s k v hm hlen hk
    exact LRU.insert_evicts_lru v hm hlen (by omega) hk

/-- The collection constructed with capacity 2 used by the claim C2
witness. -/
def collC2 : DistributedAnnDataCollection :=
  { filenames := ["w0", "w1"]
    limits := [5, 10]
    schema := schemaW
    max_cache_size := some 2
    cache_size_strictly_enforced := true
    adatas := buildLazyAdatas ["w0", "w1"] [5, 10] schemaW
    cache := LRU.insert "w0" (annW "w0") (LRU.empty (some 2)) }

theorem claim_C2_witness :
    DistributedAnnDataCollection.construct fsW ["w0", "w1"] none (some 5) none
      (some 2) true = .ok collC2 ∧
    (runMaterializations fsW (collC2.adatas ++ collC2.adatas) collC2.cache).entries.length ≤ 2 ∧
    (LRU.insert "w2" (annW "w2")
        ⟨some 2, [("w0", annW "w0"), ("w1", annW "w1")]⟩).entries
      = [("w1", annW "w1"), ("w2", annW "w2")] := by
  refine ⟨rfl, ?_, ?_⟩
  · exact (claim_C2 fsW fsW ["w0", "w1"] none (some 5) none 2 true collC2 rfl).1 _
  · have h2 := (claim_C2 fsW fsW ["w0", "w1"] none (some 5) none 2 true collC2 rfl).2
    have h3 := h2 ⟨some 2, [("w0", annW "w0"), ("w1", annW "w1")]⟩ "w2" (annW "w2")
      rfl rfl (by decide)
    simpa using h3

/-! Claim C9 (corrected). -/

/-- C9 counterexample: with `limits` given and `shard_size` not given —
exactly one of the two — but `last_shard_size` also given, construction
still fails with the configuration error (the source's second `ValueError`
branch, lines 100-103), refuting "construction does not fail with
ConfigurationError when exactly one is given". -/
theorem claim_C9_counterexample :
    (some [10] : Option (List Nat)).isSome ≠ (none : Option Nat).isSome ∧
    DistributedAnnDataCollection.construct (fun _ => none) ["f0"] (some [10]) none
      (some 5) none true = .error .configurationError :=
  ⟨by decide, rfl⟩

/-- C9 (amended): for a nonempty filename list, construction fails with
`ConfigurationError` exactly when not exactly one of an explicit boundary
list or a shard-size is given, or when a last-shard-size is given without a
shard-size; in all other cases construction never fails with
`ConfigurationError`. -/
theorem claim_C9 (fs : String → Option AnnData) (f0 : String) (rest : List String)
    (limits? : Option (List Nat)) (shard_size? last_shard_size? mcs : Option Nat)
    (strict : Bool) :
    DistributedAnnDataCollection.construct fs (f0 :: rest) limits? shard_size?
      last_shard_size? mcs strict = .error .configurationError
    ↔ (limits?.isSome = shard_size?.isSome ∨
       (shard_size?.isNone = true ∧ last_shard_size?.isSome = true)) := by
  unfold DistributedAnnDataCollection.construct
  simp only
  split
  · next hc => simp [hc]
  · next hc =>
    split
    · next hc2 => simp [hc2]
    · next hc2 =>
      constructor
      · intro h
        exfalso
        split at h
        · simp at h
        · split at h
          · simp at h
          · cases hfs : fs f0 <;> rw [hfs] at h <;> simp at h
      · intro h
        rcases h with h | h
        · exact absurd h hc
        · exact absurd h hc2

/-! Claim C6 (corrected). -/

/-- The shard used by the claim C6 counterexample and witness. -/
def laC6 : LazyAnnData :=
  { filename := "h0", limits := (0, 1), schema := ⟨fun _ => ⟨["c"], []⟩⟩ }

/-- The materialized content of the claim C6 counterexample: structurally
matching the schema but carrying real (non-placeholder) row data. -/
def annC6 : AnnData := ⟨1, fun _ => ⟨["c"], ["realRow0"]⟩⟩

/-- A cache in which the claim C6 shard is materialized. -/
def cacheC6 : LRU := ⟨some 2, [("h0", annC6)]⟩

/-- The backing store of the claim C6 counterexample and witness. -/
def fsC6 : String → Option AnnData := fun _ => some annC6

/-- C6 counterexample: with the shard materialized (its content resident in
the cache), accessing the tracked attribute `obs` through the source's
accessor in the mode used during collection construction (the process-wide
lazy flag set) returns the schema's placeholder, which differs from the
real value held in the cached content — refuting "accessing that attribute
returns the real value from the cached content when the shard is
materialized".  The accessor's mode is the global flag, not the shard's
materialization state. -/
theorem claim_C6_counterexample :
    laC6.cached cacheC6 = true ∧
    (LRU.get laC6.filename cacheC6).1 = some annC6 ∧
    (LazyAnnData.getattr fsC6 true laC6 "obs" cacheC6).1 = .ok ⟨["c"], []⟩ ∧
    annC6.attrs "obs" = ⟨["c"], ["realRow0"]⟩ ∧
    (⟨["c"], []⟩ : AttrValue) ≠ ⟨["c"], ["realRow0"]⟩ :=
  ⟨rfl, rfl, rfl, rfl, by decide⟩

/-- C6 (amended): the two modes of `LazyAnnData.__getattr__` are selected by
the process-wide lazy flag, not by the shard's materialization state.  With
the flag set (as during collection construction), accessing a tracked
attribute returns the schema's stored placeholder value and leaves the cache
untouched, independent of the backing store (no file read), whether or not
the shard is materialized.  With the flag clear, access materializes the
shard: on a resident shard it returns the attribute of the cached content
(touching the entry); on a non-resident shard it reads the backing file,
validates it, and returns the attribute of the loaded content. -/
theorem claim_C6 (fs fs2 : String → Option AnnData) (la : LazyAnnData)
    (attr : String) (cache : LRU) (hattr : attr ∈ lazyAttrs) :
    (LazyAnnData.getattr fs true la attr cache
       = (.ok (la.schema.attr_values attr), cache)) ∧
    (LazyAnnData.getattr fs true la attr cache
       = LazyAnnData.getattr fs2 true la attr cache) ∧
    (la.cached cache = true →
      ∃ a, (la.filename, a) ∈ cache.entries ∧
        LazyAnnData.getattr fs false la attr cache
          = (.ok (a.attrs attr),
             ⟨cache.max_size, eraseKey la.filename cache.entries ++ [(la.filename, a)]⟩)) ∧
    (la.cached cache = false → ∀ a, fs la.filename = some a →
      la.n_obs = a.n_obs → la.schema.validate_anndata a = true →
      LazyAnnData.getattr fs false la attr cache
        = (.ok (a.attrs attr), LRU.insert la.filename a cache)) := by
  refine ⟨?_, ?_, ?_, ?_⟩
  · simp [LazyAnnData.getattr, hattr]
  · simp [LazyAnnData.getattr, hattr]
  · intro h
    obtain ⟨a, ham, heq⟩ := adata_hit fs h
    exact ⟨a, ham, by simp [LazyAnnData.getattr, heq]⟩
  · intro h a hfs hsz hv
    simp [LazyAnnData.getattr, adata_miss_ok h hfs hsz hv]

theorem claim_C6_witness :
    ("obs" ∈ lazyAttrs) ∧
    laC6.cached cacheC6 = true ∧
    LazyAnnData.getattr fsC6 true laC6 "obs" cacheC6
      = (.ok (laC6.schema.attr_values "obs"), cacheC6) :=
  ⟨by decide, rfl, (claim_C6 fsC6 fsC6 laC6 "obs" cacheC6 (by decide)).1⟩

/-! Claim C4. -/

/-- A single materialization never produces the capacity error. -/
theorem adata_fst_ne_capacity (fs : String → Option AnnData) (la : LazyAnnData)
    (cache : LRU) :
    (LazyAnnData.adata fs la cache).1 ≠ .error .cacheCapacityError := by
  cases hc : la.cached cache with
  | true =>
    obtain ⟨a, _, heq⟩ := adata_hit fs hc
    rw [heq]
    simp
  | false =>
    cases hfs : fs la.filename with
    | none => rw [adata_miss_storage hc hfs]; simp
    | some a =>
      by_cases hsz : la.n_obs = a.n_obs
      · by_cases hv : la.schema.validate_anndata a = true
        · rw [adata_miss_ok hc hfs hsz hv]; simp
        · rw [adata_miss_schema hc hfs hsz (by simpa using hv)]; simp
      · rw [adata_miss_size hc hfs hsz]; simp

/-- Neither loop of `materialize` ever produces the capacity error: it can
come only from the strictness guard. -/
theorem materializePass_ne_capacity (fs : String → Option AnnData)
    (adatas : List LazyAnnData) (wantCached : Bool) :
    ∀ (ps : List (Nat × Nat)) (cache : LRU) (res : List (Option AnnData))
      (tr : List FetchEvent),
      (materializePass fs adatas wantCached ps cache res tr).1
        ≠ .error .cacheCapacityError := by
  intro ps
  induction ps with
  | nil => intro cache res tr; simp [materializePass]
  | cons p ps ih =>
    intro cache res tr
    unfold materializePass
    cases hg : adatas[p.2]? with
    | none => simp
    | some la =>
      simp only
      by_cases hc : la.cached cache = wantCached
      · rw [if_pos hc]
        have hne := adata_fst_ne_capacity fs la cache
        rcases hada : LazyAnnData.adata fs la cache with ⟨r, cache'⟩
        rw [hada] at hne
        cases r with
        | ok a => exact ih _ _ _
        | error e => simpa using hne
      · rw [if_neg hc]
        exact ih cache res tr

/-- When the request count does not exceed the set capacity, `materialize`
never fails with the capacity error (whatever else happens). -/
theorem materialize_ne_capacity_of_le {fs : String → Option AnnData}
    {c : DistributedAnnDataCollection} {indices : List Nat} {cap : Nat}
    (hcap : c.max_cache_size = some cap) (hlen : ¬ cap < indices.length) :
    (c.materialize fs indices).1 ≠ .error .cacheCapacityError := by
  unfold DistributedAnnDataCollection.materialize
  have hstep :
      (if c.cache_size_strictly_enforced then
        match c.max_cache_size with
        | none => (.error .typeError : Except PyErr Unit)
        | some m => if m < indices.length then .error .cacheCapacityError else .ok ()
       else .ok ()) = .ok () := by
    cases hst : c.cache_size_strictly_enforced
    · simp
    · rw [if_pos rfl, hcap]
      simp [hlen]
  rw [hstep]
  simp only
  have h1 := materializePass_ne_capacity fs c.adatas true indices.enum c.cache
    (List.replicate indices.length none) []
  rcases hp1 : materializePass fs c.adatas true indices.enum c.cache
    (List.replicate indices.length none) [] with ⟨r1, cache1, res1, tr1⟩
  rw [hp1] at h1
  cases r1 with
  | error e => simpa using h1
  | ok u =>
    simp only
    have h2 := materializePass_ne_capacity fs c.adatas false indices.enum cache1 res1 tr1
    rcases hp2 : materializePass fs c.adatas false indices.enum cache1 res1 tr1
      with ⟨r2, cache2, res2, tr2⟩
    rw [hp2] at h2
    cases r2 with
    | error e => simpa using h2
    | ok v => simp

/-- The collection of the claim C4 scenario: five shards, capacity 2, strict
enforcement on, as produced by `DistributedAnnDataCollection.construct fsW
["a0", ..., "a4"] none (some 5) none (some 2) true`. -/
def collC4 : DistributedAnnDataCollection :=
  { filenames := ["a0", "a1", "a2", "a3", "a4"]
    limits := [5, 10, 15, 20, 25]
    schema := AnnDataSchema.ofAnnData (annW "a0")
    max_cache_size := some 2
    cache_size_strictly_enforced := true
    adatas := buildLazyAdatas ["a0", "a1", "a2", "a3", "a4"] [5, 10, 15, 20, 25]
      (AnnDataSchema.ofAnnData (annW "a0"))
    cache := LRU.insert "a0" (annW "a0") (LRU.empty (some 2)) }

/-- C4: with strict enforcement and a set capacity, `materialize` fails with
`CacheCapacityError` exactly when the request count exceeds the capacity;
and in the concrete scenario (five shards, capacity 2, strict on),
`materialize [0,1,2]` raises the capacity error while `materialize [0,1]`
succeeds and leaves exactly shards 0 and 1 resident with shard 0
least-recently used (the head of the recency list). -/
theorem claim_C4 (fs : String → Option AnnData) (c : DistributedAnnDataCollection)
    (indices : List Nat) (cap : Nat)
    (hstrict : c.cache_size_strictly_enforced = true)
    (hcap : c.max_cache_size = some cap) :
    ((c.materialize fs indices).1 = .error .cacheCapacityError ↔ cap < indices.length) ∧
    DistributedAnnDataCollection.construct fsW ["a0", "a1", "a2", "a3", "a4"] none
      (some 5) none (some 2) true = .ok collC4 ∧
    (collC4.materialize fsW [0, 1, 2]).1 = .error .cacheCapacityError ∧
    isOkE (collC4.materialize fsW [0, 1]).1 = true ∧
    (collC4.materialize fsW [0, 1]).2.1.cache.keys = ["a0", "a1"] := by
  refine ⟨⟨?_, ?_⟩, rfl, rfl, rfl, rfl⟩
  · intro h
    by_contra hlt
    exact materialize_ne_capacity_of_le hcap hlt h
  · intro hlt
    unfold DistributedAnnDataCollection.materialize
    rw [hstrict, hcap]  
    simp [hlt]

theorem claim_C4_witness :
    collC4.cache_size_strictly_enforced = true ∧
    collC4.max_cache_size = some 2 ∧
    ((collC4.materialize fsW [0, 1, 2, 3]).1 = .error .cacheCapacityError
      ↔ 2 < ([0, 1, 2, 3] : List Nat).length) :=
  ⟨rfl, rfl, (claim_C4 fsW collC4 [0, 1, 2, 3] 2 rfl rfl).1⟩

/-! Claim C5. -/

/-- Inserting into a fresh cache whose capacity is not zero keeps exactly
the inserted entry. -/
theorem LRU.insert_empty {mcs : Option Nat} (k : String) (v : AnnData)
    (hz : mcs ≠ some 0) :
    (LRU.insert k v (LRU.empty mcs)).entries = [(k, v)] := by
  unfold LRU.insert LRU.empty eraseKey
  cases mcs with
  | none => rfl
  | some m =>
    simp only [List.filter_nil, List.nil_append]
    rw [if_neg]
    simp only [List.length_cons, List.length_nil]
    have : m ≠ 0 := fun h => hz (by rw [h])
    omega

/-- C5: construction reads exactly one backing file — the first.  The
constructed collection depends only on the store's content at the first
filename (conjunct 1: any store agreeing there constructs the same
collection); the first file's content is inserted pre-emptively, so after
construction exactly the first filename is resident (conjunct 2); and a
shard whose backing content (of the declared row count) structurally
diverges from the schema is not rejected at construction — which succeeded —
but fails with `SchemaMismatchError` exactly when it is first materialized
(conjunct 3). -/
theorem claim_C5 (fs fs2 : String → Option AnnData) (filenames : List String)
    (limits? : Option (List Nat)) (shard_size? last_shard_size? mcs : Option Nat)
    (strict : Bool) (c : DistributedAnnDataCollection)
    (hagree : fs (filenames.headD "") = fs2 (filenames.headD ""))
    (hok : DistributedAnnDataCollection.construct fs filenames limits? shard_size?
      last_shard_size? mcs strict = .ok c) :
    DistributedAnnDataCollection.construct fs2 filenames limits? shard_size?
      last_shard_size? mcs strict = .ok c ∧
    c.cache.keys = [filenames.headD ""] ∧
    (∀ (k : Nat) (la : LazyAnnData) (a : AnnData), c.adatas[k]? = some la →
      la.cached c.cache = false → fs la.filename = some a → la.n_obs = a.n_obs →
      la.schema.validate_anndata a = false →
      LazyAnnData.adata fs la c.cache = (.error .schemaMismatchError, c.cache)) := by
  obtain ⟨f0, rest, a0, hfn, hfs0, hzero, _, _, _, _, _, _, hcache⟩ := construct_ok_inv hok
  subst hfn
  refine ⟨?_, ?_, ?_⟩
  · rw [← hok]
    simp only [List.headD_cons] at hagree
    simp only [DistributedAnnDataCollection.construct]
    rw [hagree]
  · rw [hcache]
    simp only [List.headD_cons, LRU.keys, LRU.insert_empty f0 a0 hzero, List.map_cons,
      List.map_nil]
  · intro k la a _ hc hfs hsz hv
    exact adata_miss_schema hc hfs hsz hv

/-- The structurally diverging second shard content of the claim C5
witness. -/
def annC5bad : AnnData := ⟨5, fun _ => ⟨["other"], []⟩⟩

/-- The backing store of the claim C5 witness: the second file diverges
structurally from the first. -/
def fsC5 : String → Option AnnData :=
  fun fn => if fn = "g1" then some annC5bad else some (annW fn)

/-- The collection of the claim C5 witness, as produced by
`DistributedAnnDataCollection.construct fsC5 ["g0", "g1"] none (some 5) none
(some 2) true`. -/
def collC5 : DistributedAnnDataCollection :=
  { filenames := ["g0", "g1"]
    limits := [5, 10]
    schema := AnnDataSchema.ofAnnData (annW "g0")
    max_cache_size := some 2
    cache_size_strictly_enforced := true
    adatas := buildLazyAdatas ["g0", "g1"] [5, 10] (AnnDataSchema.ofAnnData (annW "g0"))
    cache := LRU.insert "g0" (annW "g0") (LRU.empty (some 2)) }

/-- The second (diverging) shard of the claim C5 witness collection. -/
def laC5 : LazyAnnData :=
  { filename := "g1", limits := (5, 10), schema := AnnDataSchema.ofAnnData (annW "g0") }

theorem claim_C5_witness :
    DistributedAnnDataCollection.construct fsC5 ["g0", "g1"] none (some 5) none
      (some 2) true = .ok collC5 ∧
    collC5.cache.keys = ["g0"] ∧
    collC5.adatas[1]? = some laC5 ∧
    laC5.schema.validate_anndata annC5bad = false ∧
    LazyAnnData.adata fsC5 laC5 collC5.cache
      = (.error .schemaMismatchError, collC5.cache) := by
  have h := claim_C5 fsC5 fsC5 ["g0", "g1"] none (some 5) none (some 2) true collC5
    rfl rfl
  exact ⟨h.1, h.2.1, rfl, by decide,
    h.2.2 1 laC5 annC5bad rfl rfl rfl rfl (by decide)⟩

/-! Claim C1: helper lemmas relating the enumerated index list of
`materialize` to the plain index list. -/

theorem enumFrom_mem_snd {α : Type} {l : List α} {n : Nat} {p : Nat × α}
    (h : p ∈ l.enumFrom n) : p.2 ∈ l := by
  have h2 : p.2 ∈ (l.enumFrom n).map Prod.snd := List.mem_map_of_mem Prod.snd h
  rwa [List.enumFrom_map_snd] at h2

theorem enumFrom_forall_snd {α : Type} {P : α → Prop} :
    ∀ (l : List α) (n : Nat), (∀ x ∈ l, P x) → ∀ p ∈ l.enumFrom n, P p.2 :=
  fun _ _ h _ hp => h _ (enumFrom_mem_snd hp)

theorem enumFrom_pairwise_snd {α : Type} {R : α → α → Prop} :
    ∀ (l : List α) (n : Nat), l.Pairwise R →
      (l.enumFrom n).Pairwise fun p q => R p.2 q.2 := by
  intro l
  induction l with
  | nil => intro n _; simp [List.enumFrom]
  | cons x xs ih =>
    intro n h
    rcases List.pairwise_cons.1 h with ⟨hx, hxs⟩
    simp only [List.enumFrom]
    exact List.pairwise_cons.2 ⟨fun q hq => hx q.2 (enumFrom_mem_snd hq), ih (n + 1) hxs⟩

theorem enumFrom_filter_map {α β : Type} (q : α → Bool) (f : α → β) :
    ∀ (l : List α) (n : Nat),
      ((l.enumFrom n).filter (fun p => q p.2)).map (fun p => f p.2)
        = (l.filter q).map f := by
  intro l
  induction l with
  | nil => intro n; rfl
  | cons x xs ih =>
    intro n
    simp only [List.enumFrom, List.filter_cons]
    by_cases hq : q x = true
    · simp [hq, ih (n + 1)]
    · simp [hq, ih (n + 1)]

/-- First-loop analysis of `materialize`: on a cache split into a junk part
and a protected good suffix, with requested shards of pairwise distinct
filenames, the `wantCached = true` pass performs exactly one hit per
requested index whose shard is resident (`r` true), in list order, moving
each touched entry to the most-recently-used end of the good suffix; the
junk part only loses entries. -/
theorem materializePass_hits (fs : String → Option AnnData)
    (adatas : List LazyAnnData) (r : Nat → Bool) :
    ∀ (ps : List (Nat × Nat)) (ms : Option Nat)
      (junkE goodE : List (String × AnnData)) (res : List (Option AnnData))
      (tr : List FetchEvent),
      (∀ p ∈ ps, p.2 < adatas.length) →
      List.Pairwise (fun p q : Nat × Nat => fnAt adatas p.2 ≠ fnAt adatas q.2) ps →
      (∀ p ∈ ps, r p.2 = true →
        fnAt adatas p.2 ∈ junkE.map Prod.fst ∧
        fnAt adatas p.2 ∉ goodE.map Prod.fst) →
      (∀ p ∈ ps, r p.2 = false →
        fnAt adatas p.2 ∉ junkE.map Prod.fst ∧
        fnAt adatas p.2 ∉ goodE.map Prod.fst) →
      ∃ junkE2 res2 touched,
        materializePass fs adatas true ps ⟨ms, junkE ++ goodE⟩ res tr
          = (.ok (), ⟨ms, junkE2 ++ (goodE ++ touched)⟩, res2,
             tr ++ (ps.filter (fun p => r p.2)).map (fun p => .hit p.2)) ∧
        touched.map Prod.fst
          = (ps.filter (fun p => r p.2)).map (fun p => fnAt adatas p.2) ∧
        junkE2.Sublist junkE := by
  intro ps
  induction ps with
  | nil =>
    intro ms junkE goodE res tr _ _ _ _
    refine ⟨junkE, res, [], ?_, rfl, List.Sublist.refl _⟩
    simp [materializePass]
  | cons p ps ih =>
    intro ms junkE goodE res tr hvalid hpair hres hnres
    have hlt : p.2 < adatas.length := hvalid p (List.mem_cons_self p ps)
    have hg : adatas[p.2]? = some adatas[p.2] := List.getElem?_eq_getElem hlt
    have hfn : fnAt adatas p.2 = (adatas[p.2]).filename := by simp [fnAt, hg]
    have hhead : ∀ q ∈ ps, fnAt adatas p.2 ≠ fnAt adatas q.2 :=
      (List.pairwise_cons.1 hpair).1
    have hpair' := (List.pairwise_cons.1 hpair).2
    have hvalid' : ∀ q ∈ ps, q.2 < adatas.length :=
      fun q hq => hvalid q (List.mem_cons_of_mem p hq)
    unfold materializePass
    rw [hg]
    simp only
    cases hr : r p.2 with
    | true =>
      obtain ⟨hjunk, hgood⟩ := hres p (List.mem_cons_self p ps) hr
      rw [hfn] at hjunk hgood
      have hcached : (adatas[p.2]).cached ⟨ms, junkE ++ goodE⟩ = true := by
        rw [cached_true_iff]
        simp only [LRU.keys, List.map_append, List.mem_append]
        exact Or.inl hjunk
      rw [if_pos hcached]
      obtain ⟨a, ham, heq⟩ := adata_hit fs hcached
      rw [heq]
      simp only
      have herase : eraseKey (adatas[p.2]).filename (junkE ++ goodE)
          = eraseKey (adatas[p.2]).filename junkE ++ goodE := by
        have h2 : eraseKey (adatas[p.2]).filename goodE = goodE :=
          eraseKey_of_not_mem hgood
        unfold eraseKey at h2 ⊢
        rw [List.filter_append, h2]
      have hres' : ∀ q ∈ ps, r q.2 = true →
          fnAt adatas q.2 ∈ (eraseKey (adatas[p.2]).filename junkE).map Prod.fst ∧
          fnAt adatas q.2 ∉ (goodE ++ [((adatas[p.2]).filename, a)]).map Prod.fst := by
        intro q hq hrq
        obtain ⟨hjq, hgq⟩ := hres q (List.mem_cons_of_mem p hq) hrq
        have hne : fnAt adatas q.2 ≠ (adatas[p.2]).filename :=
          fun hcon => hhead q hq (by rw [hfn, ← hcon])
        refine ⟨(mem_map_fst_eraseKey hne).2 hjq, ?_⟩
        simp only [List.map_append, List.map_cons, List.map_nil, List.mem_append,
          List.mem_singleton]
        rintro (hmem | hmem)
        · exact hgq hmem
        · exact hne hmem
      have hnres' : ∀ q ∈ ps, r q.2 = false →
          fnAt adatas q.2 ∉ (eraseKey (adatas[p.2]).filename junkE).map Prod.fst ∧
          fnAt adatas q.2 ∉ (goodE ++ [((adatas[p.2]).filename, a)]).map Prod.fst := by
        intro q hq hrq
        obtain ⟨hjq, hgq⟩ := hnres q (List.mem_cons_of_mem p hq) hrq
        have hne : fnAt adatas q.2 ≠ (adatas[p.2]).filename :=
          fun hcon => hhead q hq (by rw [hfn, ← hcon])
        refine ⟨fun hmem => hjq ?_, ?_⟩
        · exact List.map_subset Prod.fst (List.Sublist.subset (eraseKey_sublist _ _)) hmem
        · simp only [List.map_append, List.map_cons, List.map_nil, List.mem_append,
            List.mem_singleton]
          rintro (hmem | hmem)
          · exact hgq hmem
          · exact hne hmem
      obtain ⟨junk2, res2, touched, hrun, htfst, hsub⟩ :=
        ih ms (eraseKey (adatas[p.2]).filename junkE)
          (goodE ++ [((adatas[p.2]).filename, a)]) (res.set p.1 (some a))
          (tr ++ [FetchEvent.hit p.2]) hvalid' hpair' hres' hnres'
      rw [← List.append_assoc, ← herase] at hrun
      refine ⟨junk2, res2, ((adatas[p.2]).filename, a) :: touched, ?_, ?_,
        hsub.trans (eraseKey_sublist _ _)⟩
      · simp only [Bool.cond_true]
        rw [hrun]
        simp [List.filter_cons, hr, List.append_assoc]
      · simp [List.filter_cons, hr, htfst, hfn]
    | false =>
      obtain ⟨hjunk, hgood⟩ := hnres p (List.mem_cons_self p ps) hr
      rw [hfn] at hjunk hgood
      have hcached : (adatas[p.2]).cached ⟨ms, junkE ++ goodE⟩ = false := by
        rw [cached_false_iff]
        simp only [LRU.keys, List.map_append, List.mem_append]
        rintro (hmem | hmem)
        · exact hjunk hmem
        · exact hgood hmem
      rw [if_neg (by simp [hcached])]
      have hres' : ∀ q ∈ ps, r q.2 = true →
          fnAt adatas q.2 ∈ junkE.map Prod.fst ∧
          fnAt adatas q.2 ∉ goodE.map Prod.fst :=
        fun q hq hrq => hres q (List.mem_cons_of_mem p hq) hrq
      have hnres' : ∀ q ∈ ps, r q.2 = false →
          fnAt adatas q.2 ∉ junkE.map Prod.fst ∧
          fnAt adatas q.2 ∉ goodE.map Prod.fst :=
        fun q hq hrq => hnres q (List.mem_cons_of_mem p hq) hrq
      obtain ⟨junk2, res2, touched, hrun, htfst, hsub⟩ :=
        ih ms junkE goodE res tr hvalid' hpair' hres' hnres'
      refine ⟨junk2, res2, touched, ?_, ?_, hsub⟩
      · rw [hrun]
        simp [List.filter_cons, hr]
      · simp [htfst, List.filter_cons, hr]

/-- Second-loop analysis of `materialize`: with the requested resident
shards protected in the good suffix, the requested shard count (good
entries plus pending loads) within the capacity, and pairwise distinct
requested filenames, the `wantCached = false` pass loads exactly the
requested non-resident shards (`r` false), in list order, appending them to
the good suffix; evictions only ever remove junk entries, so the good
suffix survives. -/
theorem materializePass_loads (fs : String → Option AnnData)
    (adatas : List LazyAnnData) (r : Nat → Bool) (cap : Nat) :
    ∀ (ps : List (Nat × Nat)) (junkE goodE : List (String × AnnData))
      (res : List (Option AnnData)) (tr : List FetchEvent),
      (∀ p ∈ ps, p.2 < adatas.length) →
      List.Pairwise (fun p q : Nat × Nat => fnAt adatas p.2 ≠ fnAt adatas q.2) ps →
      goodE.length + (ps.filter (fun p => !r p.2)).length ≤ cap →
      (∀ p ∈ ps, r p.2 = true → fnAt adatas p.2 ∈ goodE.map Prod.fst) →
      (∀ p ∈ ps, r p.2 = false →
        fnAt adatas p.2 ∉ junkE.map Prod.fst ∧
        fnAt adatas p.2 ∉ goodE.map Prod.fst ∧
        (∀ la, adatas[p.2]? = some la → loadOk fs la)) →
      ∃ junkE2 res2 inserted,
        materializePass fs adatas false ps ⟨some cap, junkE ++ goodE⟩ res tr
          = (.ok (), ⟨some cap, junkE2 ++ (goodE ++ inserted)⟩, res2,
             tr ++ (ps.filter (fun p => !r p.2)).map (fun p => .load p.2)) ∧
        inserted.map Prod.fst
          = (ps.filter (fun p => !r p.2)).map (fun p => fnAt adatas p.2) ∧
        junkE2.Sublist junkE := by
  intro ps
  induction ps with
  | nil =>
    intro junkE goodE res tr _ _ _ _ _
    refine ⟨junkE, res, [], ?_, rfl, List.Sublist.refl _⟩
    simp [materializePass]
  | cons p ps ih =>
    intro junkE goodE res tr hvalid hpair hcap hres hnres
    have hlt : p.2 < adatas.length := hvalid p (List.mem_cons_self p ps)
    have hg : adatas[p.2]? = some adatas[p.2] := List.getElem?_eq_getElem hlt
    have hfn : fnAt adatas p.2 = (adatas[p.2]).filename := by simp [fnAt, hg]
    have hhead : ∀ q ∈ ps, fnAt adatas p.2 ≠ fnAt adatas q.2 :=
      (List.pairwise_cons.1 hpair).1
    have hpair' := (List.pairwise_cons.1 hpair).2
    have hvalid' : ∀ q ∈ ps, q.2 < adatas.length :=
      fun q hq => hvalid q (List.mem_cons_of_mem p hq)
    unfold materializePass
    rw [hg]
    simp only
    cases hr : r p.2 with
    | true =>
      have hgood := hres p (List.mem_cons_self p ps) hr
      rw [hfn] at hgood
      have hcached : (adatas[p.2]).cached ⟨some cap, junkE ++ goodE⟩ = true := by
        rw [cached_true_iff]
        simp only [LRU.keys, List.map_append, List.mem_append]
        exact Or.inr hgood
      rw [if_neg (by simp [hcached])]
      have hcap2 : goodE.length + (ps.filter (fun p => !r p.2)).length ≤ cap := by
        have : ((p :: ps).filter (fun p => !r p.2)) = ps.filter (fun p => !r p.2) := by
          simp [List.filter_cons, hr]
        rwa [this] at hcap
      obtain ⟨junk2, res2, inserted, hrun, hifst, hsub⟩ :=
        ih junkE goodE res tr hvalid' hpair' hcap2
          (fun q hq hrq => hres q (List.mem_cons_of_mem p hq) hrq)
          (fun q hq hrq => hnres q (List.mem_cons_of_mem p hq) hrq)
      refine ⟨junk2, res2, inserted, ?_, ?_, hsub⟩
      · rw [hrun]
        simp [List.filter_cons, hr]
      · simp [hifst, List.filter_cons, hr]
    | false =>
      obtain ⟨hjunk, hgood, hload⟩ := hnres p (List.mem_cons_self p ps) hr
      rw [hfn] at hjunk hgood
      have hcached : (adatas[p.2]).cached ⟨some cap, junkE ++ goodE⟩ = false := by
        rw [cached_false_iff]
        simp only [LRU.keys, List.map_append, List.mem_append]
        rintro (hmem | hmem)
        · exact hjunk hmem
        · exact hgood hmem
      rw [if_pos hcached]
      obtain ⟨a, hfsa, hsz, hv⟩ := hload adatas[p.2] hg
      have heq := adata_miss_ok hcached hfsa hsz hv
      rw [heq]
      simp only
      -- the insertion: the key is fresh, so no erasure happens
      have hnomem : (adatas[p.2]).filename ∉ (junkE ++ goodE).map Prod.fst := by
        simp only [List.map_append, List.mem_append]
        rintro (hmem | hmem)
        · exact hjunk hmem
        · exact hgood hmem
      have hfilterlen : ((p :: ps).filter (fun p => !r p.2)).length
          = (ps.filter (fun p => !r p.2)).length + 1 := by
        simp [List.filter_cons, hr]
      -- characterize the insertion result
      have hins : ∃ junkE1, junkE1.Sublist junkE ∧
          LRU.insert (adatas[p.2]).filename a ⟨some cap, junkE ++ goodE⟩
            = ⟨some cap, junkE1 ++ (goodE ++ [((adatas[p.2]).filename, a)])⟩ := by
        unfold LRU.insert
        simp only
        rw [eraseKey_of_not_mem hnomem]
        split
        · next hover =>
          cases hje : junkE with
          | nil =>
            exfalso
            rw [hje] at hover
            simp only [List.nil_append, List.length_append, List.length_cons,
              List.length_nil] at hover
            omega
          | cons j js =>
            refine ⟨js, List.sublist_cons_self j js, ?_⟩
            simp [List.append_assoc]
        · next hover =>
          exact ⟨junkE, List.Sublist.refl _, by simp [List.append_assoc]⟩
      obtain ⟨junkE1, hsub1, hinsert⟩ := hins
      rw [hinsert]
      have hsubk1 : ∀ k', k' ∈ junkE1.map Prod.fst → k' ∈ junkE.map Prod.fst :=
        fun k' hk => List.map_subset Prod.fst (List.Sublist.subset hsub1) hk
      have hcap2 : (goodE ++ [((adatas[p.2]).filename, a)]).length
          + (ps.filter (fun p => !r p.2)).length ≤ cap := by
        rw [hfilterlen] at hcap
        simp only [List.length_append, List.length_cons, List.length_nil]
        omega
      have hres' : ∀ q ∈ ps, r q.2 = true →
          fnAt adatas q.2 ∈ (goodE ++ [((adatas[p.2]).filename, a)]).map Prod.fst := by
        intro q hq hrq
        have := hres q (List.mem_cons_of_mem p hq) hrq
        simp only [List.map_append, List.mem_append]
        exact Or.inl this
      have hnres' : ∀ q ∈ ps, r q.2 = false →
          fnAt adatas q.2 ∉ junkE1.map Prod.fst ∧
          fnAt adatas q.2 ∉ (goodE ++ [((adatas[p.2]).filename, a)]).map Prod.fst ∧
          (∀ la, adatas[q.2]? = some la → loadOk fs la) := by
        intro q hq hrq
        obtain ⟨hjq, hgq, hlq⟩ := hnres q (List.mem_cons_of_mem p hq) hrq
        have hne : fnAt adatas q.2 ≠ (adatas[p.2]).filename :=
          fun hcon => hhead q hq (by rw [hfn, ← hcon])
        refine ⟨fun hmem => hjq (hsubk1 _ hmem), ?_, hlq⟩
        simp only [List.map_append, List.map_cons, List.map_nil, List.mem_append,
          List.mem_singleton]
        rintro (hmem | hmem)
        · exact hgq hmem
        · exact hne hmem
      obtain ⟨junk2, res2, inserted, hrun, hifst, hsub⟩ :=
        ih junkE1 (goodE ++ [((adatas[p.2]).filename, a)]) (res.set p.1 (some a))
          (tr ++ [FetchEvent.load p.2]) hvalid' hpair' hcap2 hres' hnres'
      refine ⟨junk2, res2, ((adatas[p.2]).filename, a) :: inserted, ?_, ?_,
        hsub.trans hsub1⟩
      · simp only [Bool.cond_false]
        rw [hrun]
        simp [List.filter_cons, hr, List.append_assoc]
      · simp [List.filter_cons, hr, hifst, hfn]

/-- C1 (amended): for every call to `materialize` whose requested indices
are in range and refer to shards with pairwise distinct filenames, number at
most the cache capacity (as strict enforcement guarantees), and are each
either resident or loadable, the shards are fetched in exactly two passes —
first a hit for every requested shard already resident at the start of the
call, in the order the indices list them, then a load for every other
requested shard, in the order the indices list them — the call succeeds, and
every requested shard (in particular every initially resident one) is still
resident when the call returns.  Without the bound on the request count
(possible only with strict enforcement off) a resident requested shard can
be evicted mid-call and fetched a second time in the second pass, as the
counterexample shows. -/
theorem claim_C1 (fs : String → Option AnnData) (c : DistributedAnnDataCollection)
    (indices : List Nat) (cap : Nat)
    (hcap : c.max_cache_size = some cap)
    (hcapc : c.cache.max_size = some cap)
    (hlen : indices.length ≤ cap)
    (hvalid : ∀ i ∈ indices, i < c.adatas.length)
    (hnodup : (indices.map (fnAt c.adatas)).Nodup)
    (hload : ∀ i ∈ indices, ∀ la, c.adatas[i]? = some la →
      la.cached c.cache = true ∨ loadOk fs la) :
    isOkE (c.materialize fs indices).1 = true ∧
    (c.materialize fs indices).2.2 = twoPassTrace c indices ∧
    (∀ i ∈ indices, ∀ la, c.adatas[i]? = some la →
      la.cached (c.materialize fs indices).2.1.cache = true) := by
  have henum : indices.enum = indices.enumFrom 0 := rfl
  have hpairI : indices.Pairwise (fun i j => fnAt c.adatas i ≠ fnAt c.adatas j) :=
    List.pairwise_map.mp hnodup
  have hvalidE : ∀ p ∈ indices.enumFrom 0, p.2 < c.adatas.length :=
    enumFrom_forall_snd indices 0 hvalid
  have hpairE : (indices.enumFrom 0).Pairwise
      (fun p q : Nat × Nat => fnAt c.adatas p.2 ≠ fnAt c.adatas q.2) :=
    enumFrom_pairwise_snd indices 0 hpairI
  -- residency facts per requested index
  have hresid : ∀ p ∈ indices.enumFrom 0, ∀ la, c.adatas[p.2]? = some la →
      residentAt c p.2 = la.cached c.cache := by
    intro p _ la hg
    unfold residentAt
    rw [hg]
  have hres1 : ∀ p ∈ indices.enumFrom 0, residentAt c p.2 = true →
      fnAt c.adatas p.2 ∈ c.cache.entries.map Prod.fst ∧
      fnAt c.adatas p.2 ∉ (([] : List (String × AnnData))).map Prod.fst := by
    intro p hp hr
    have hlt : p.2 < c.adatas.length := hvalidE p hp
    have hg : c.adatas[p.2]? = some c.adatas[p.2] := List.getElem?_eq_getElem hlt
    have hfn : fnAt c.adatas p.2 = (c.adatas[p.2]).filename := by simp [fnAt, hg]
    rw [hresid p hp _ hg] at hr
    refine ⟨?_, by simp⟩
    rw [hfn]
    exact (cached_true_iff _ _).1 hr
  have hnrescache : ∀ p ∈ indices.enumFrom 0, residentAt c p.2 = false →
      fnAt c.adatas p.2 ∉ c.cache.entries.map Prod.fst := by
    intro p hp hr
    have hlt : p.2 < c.adatas.length := hvalidE p hp
    have hg : c.adatas[p.2]? = some c.adatas[p.2] := List.getElem?_eq_getElem hlt
    have hfn : fnAt c.adatas p.2 = (c.adatas[p.2]).filename := by simp [fnAt, hg]
    rw [hresid p hp _ hg] at hr
    rw [hfn]
    exact (cached_false_iff _ _).1 hr
  have hnres1 : ∀ p ∈ indices.enumFrom 0, residentAt c p.2 = false →
      fnAt c.adatas p.2 ∉ c.cache.entries.map Prod.fst ∧
      fnAt c.adatas p.2 ∉ (([] : List (String × AnnData))).map Prod.fst :=
    fun p hp hr => ⟨hnrescache p hp hr, by simp⟩
  obtain ⟨junk1, res1, touched, hrun1, htfst, hsub1⟩ :=
    materializePass_hits fs c.adatas (fun idx => residentAt c idx)
      (indices.enumFrom 0) (some cap) c.cache.entries []
      (List.replicate indices.length none) [] hvalidE hpairE hres1 hnres1
  simp only [List.nil_append] at hrun1
  -- lengths transfer between the enumerated and the plain index list
  have hflen : ∀ q : Nat → Bool,
      ((indices.enumFrom 0).filter (fun p => q p.2)).length
        = (indices.filter q).length := by
    intro q
    have h1 := congrArg List.length (enumFrom_filter_map q (fun i => i) indices 0)
    simpa using h1
  have htouchlen : touched.length = (indices.filter (fun idx => residentAt c idx)).length := by
    have := congrArg List.length htfst
    simpa [hflen] using this
  have hcaplen : touched.length
      + ((indices.enumFrom 0).filter (fun p => !residentAt c p.2)).length ≤ cap := by
    rw [htouchlen, hflen (fun idx => !residentAt c idx)]
    have hsplit := List.length_eq_length_filter_add
      (l := indices) (fun idx => residentAt c idx)
    have : (indices.filter (fun idx => residentAt c idx)).length
        + (indices.filter (fun idx => !residentAt c idx)).length
        = indices.length := by
      rw [hsplit]
    omega
  have htfstI : touched.map Prod.fst
      = (indices.filter (fun idx => residentAt c idx)).map (fnAt c.adatas) := by
    rw [htfst, enumFrom_filter_map]
  have hres2 : ∀ p ∈ indices.enumFrom 0, residentAt c p.2 = true →
      fnAt c.adatas p.2 ∈ touched.map Prod.fst := by
    intro p hp hr
    rw [htfstI]
    have hmem : p.2 ∈ indices.filter (fun idx => residentAt c idx) :=
      List.mem_filter.2 ⟨enumFrom_mem_snd hp, hr⟩
    exact List.mem_map_of_mem (fnAt c.adatas) hmem
  have hsymm : Symmetric (fun p q : Nat × Nat => fnAt c.adatas p.2 ≠ fnAt c.adatas q.2) :=
    fun p q h => fun e => h e.symm
  have hnres2 : ∀ p ∈ indices.enumFrom 0, residentAt c p.2 = false →
      fnAt c.adatas p.2 ∉ junk1.map Prod.fst ∧
      fnAt c.adatas p.2 ∉ touched.map Prod.fst ∧
      (∀ la, c.adatas[p.2]? = some la → loadOk fs la) := by
    intro p hp hr
    refine ⟨?_, ?_, ?_⟩
    · intro hmem
      exact hnrescache p hp hr
        (List.map_subset Prod.fst (List.Sublist.subset hsub1) hmem)
    · rw [htfst]
      intro hmem
      obtain ⟨q, hqf, hqe⟩ := List.mem_map.1 hmem
      have hqmem := List.mem_filter.1 hqf
      have hne : q ≠ p := by
        intro hqp
        rw [hqp] at hqmem
        rw [hr] at hqmem
        simp at hqmem
      exact (List.Pairwise.forall hsymm hpairE hqmem.1 hp hne) hqe
    · intro la hg
      rcases hload p.2 (enumFrom_mem_snd hp) la hg with hc | hl
      · rw [hresid p hp la hg, hc] at hr
        simp at hr
      · exact hl
  obtain ⟨junk2, res2, inserted, hrun2, hifst, hsub2⟩ :=
    materializePass_loads fs c.adatas (fun idx => residentAt c idx) cap
      (indices.enumFrom 0) junk1 touched res1
      (((indices.enumFrom 0).filter (fun p => residentAt c p.2)).map
        (fun p => FetchEvent.hit p.2))
      hvalidE hpairE hcaplen hres2 hnres2
  have hifstI : inserted.map Prod.fst
      = (indices.filter (fun idx => !residentAt c idx)).map (fnAt c.adatas) := by
    rw [hifst, enumFrom_filter_map (fun idx => !residentAt c idx) (fnAt c.adatas)]
  -- reduce the strictness guard and run the two passes
  have hcacheeq : (⟨some cap, c.cache.entries ++ []⟩ : LRU) = c.cache := by
    rw [List.append_nil, ← hcapc]
  have hmat : c.materialize fs indices
      = (.ok res2, { c with cache := ⟨some cap, junk2 ++ (touched ++ inserted)⟩ },
         ((indices.enumFrom 0).filter (fun p => residentAt c p.2)).map
            (fun p => FetchEvent.hit p.2)
          ++ ((indices.enumFrom 0).filter (fun p => !residentAt c p.2)).map
            (fun p => FetchEvent.load p.2)) := by
    unfold DistributedAnnDataCollection.materialize
    have hstep :
        (if c.cache_size_strictly_enforced then
          match c.max_cache_size with
          | none => (.error .typeError : Except PyErr Unit)
          | some m => if m < indices.length then .error .cacheCapacityError else .ok ()
         else .ok ()) = .ok () := by
      cases hst : c.cache_size_strictly_enforced
      · simp
      · rw [if_pos rfl, hcap]
        simp [Nat.not_lt.2 hlen]
    rw [hstep]
    simp only
    rw [henum, ← hcacheeq, hrun1]
    simp only
    rw [hrun2]
  rw [hmat]
  refine ⟨rfl, ?_, ?_⟩
  · simp only
    unfold twoPassTrace
    rw [enumFrom_filter_map (fun idx => residentAt c idx) FetchEvent.hit indices 0,
      enumFrom_filter_map (fun idx => !residentAt c idx) FetchEvent.load indices 0]
  · intro i hi la hg
    have hfn : fnAt c.adatas i = la.filename := by simp [fnAt, hg]
    simp only
    rw [cached_true_iff]
    simp only [LRU.keys, List.map_append, List.mem_append]
    cases hr : residentAt c i with
    | true =>
      have hmem : la.filename ∈ touched.map Prod.fst := by
        rw [htfstI, ← hfn]
        exact List.mem_map_of_mem (fnAt c.adatas)
          (List.mem_filter.2 ⟨hi, hr⟩)
      exact Or.inr (Or.inl hmem)
    | false =>
      have hmem : la.filename ∈ inserted.map Prod.fst := by
        rw [hifstI, ← hfn]
        refine List.mem_map_of_mem (fnAt c.adatas) (List.mem_filter.2 ⟨hi, ?_⟩)
        simp [hr]
      exact Or.inr (Or.inr hmem)

/-- The collection of the claim C1 counterexample: three shards, capacity 2,
strict enforcement off, shard 0 resident, as produced by
`DistributedAnnDataCollection.construct fsW ["b0", "b1", "b2"] none (some 5)
none (some 2) false`. -/
def collC1 : DistributedAnnDataCollection :=
  { filenames := ["b0", "b1", "b2"]
    limits := [5, 10, 15]
    schema := AnnDataSchema.ofAnnData (annW "b0")
    max_cache_size := some 2
    cache_size_strictly_enforced := false
    adatas := buildLazyAdatas ["b0", "b1", "b2"] [5, 10, 15]
      (AnnDataSchema.ofAnnData (annW "b0"))
    cache := LRU.insert "b0" (annW "b0") (LRU.empty (some 2)) }

/-- C1 counterexample: shard 0 is resident, and the call
`materialize [1, 2, 0]` (three requested shards, capacity 2 — permitted
because strict enforcement is off) succeeds but fetches shard 0 twice: once
as a hit in the first pass and again as a load in the second pass, after
the second pass's insertions evicted it.  The fetch sequence therefore is
not "every resident requested shard, then every non-resident requested
shard", refuting the claim as stated for general `materialize` calls. -/
theorem claim_C1_counterexample :
    DistributedAnnDataCollection.construct fsW ["b0", "b1", "b2"] none (some 5) none
      (some 2) false = .ok collC1 ∧
    residentAt collC1 0 = true ∧
    isOkE (collC1.materialize fsW [1, 2, 0]).1 = true ∧
    (collC1.materialize fsW [1, 2, 0]).2.2
      = [.hit 0, .load 1, .load 2, .load 0] ∧
    twoPassTrace collC1 [1, 2, 0] = [.hit 0, .load 1, .load 2] ∧
    ([FetchEvent.hit 0, .load 1, .load 2, .load 0]
      ≠ [FetchEvent.hit 0, .load 1, .load 2]) :=
  ⟨rfl, rfl, rfl, by decide, by decide, by decide⟩

theorem claim_C1_witness :
    collC2.max_cache_size = some 2 ∧
    collC2.cache.max_size = some 2 ∧
    ([0, 1] : List Nat).length ≤ 2 ∧
    (∀ i ∈ ([0, 1] : List Nat), i < collC2.adatas.length) ∧
    (([0, 1] : List Nat).map (fnAt collC2.adatas)).Nodup ∧
    isOkE (collC2.materialize fsW [0, 1]).1 = true ∧
    (collC2.materialize fsW [0, 1]).2.2 = twoPassTrace collC2 [0, 1] ∧
    (∀ i ∈ ([0, 1] : List Nat), ∀ la, collC2.adatas[i]? = some la →
      la.cached (collC2.materialize fsW [0, 1]).2.1.cache = true) := by
  have hl : ∀ i ∈ ([0, 1] : List Nat), ∀ la, collC2.adatas[i]? = some la →
      la.cached collC2.cache = true ∨ loadOk fsW la := by
    intro i hi la hg
    simp only [List.mem_cons, List.mem_singleton, List.not_mem_nil, or_false] at hi
    rcases hi with rfl | rfl
    · have hx : collC2.adatas[0]? = some ⟨"w0", (0, 5), schemaW⟩ := rfl
      rw [hx] at hg
      injection hg with hgla
      subst hgla
      exact Or.inl rfl
    · have hx : collC2.adatas[1]? = some ⟨"w1", (5, 10), schemaW⟩ := rfl
      rw [hx] at hg
      injection hg with hgla
      subst hgla
      exact Or.inr ⟨annW "w1", rfl, rfl, by decide⟩
  have h := claim_C1 fsW collC2 [0, 1] 2 rfl rfl (by decide)
    (by decide) (by decide) hl
  exact ⟨rfl, rfl, by decide, by decide, by decide, h.1, h.2.1, h.2.2⟩
